import Mathlib

/-!
Shallow embedding of the interactive confirmation logic of
`src/oneoff/update-llm-tags.py` (functions `get_key_press`, `display_readme`,
`display_and_confirm_repos`) and of the tag-adding logic of `src/tag.py`
(function `add_transformers_tag`), together with theorems settling the
specification claims about them.

Modelling conventions:
* The terminal attribute word returned by `termios.tcgetattr` is modelled as a
  `Nat`; `tty.setraw` installs the distinguished value `rawMode`.  Every
  `tcsetattr`/`setraw` call is recorded in `Term.setLog` so that the
  acquire/release discipline is visible in the model.
* `sys.stdin.read(1)` is driven by a list of events `List ReadEv`: `.key c`
  means the read returns the one-character string `c`, `.raiseErr` means the
  read raises an exception.  An exhausted event list models an
  exhausted/closed input stream: in CPython `sys.stdin.read(1)` then returns
  the empty string on every call.
* The outcome of `display_readme` is `Outcome`: `.confirmed`/`.rejected` for the
  `return True`/`return False` paths, `.aborted` for the `exit(1)` paths
  (Ctrl+C / Ctrl+\), `.raised` for an exception propagating out of the read,
  and `.stuck` for the case in which the function never returns: with an
  exhausted stream the inner `while True` loop re-reads the empty string
  forever (no
  branch of the `if`/`elif` chain matches the empty string, so the loop state
  never changes).
-/

/-- The terminal state: the current attribute word (`termios.tcgetattr`) plus a
log of every attribute word installed by `tcsetattr`/`tty.setraw`, in order. -/
structure Term where
  mode : Nat
  setLog : List Nat
deriving Repr, DecidableEq

/-- The attribute word installed by `tty.setraw`. -/
def rawMode : Nat := 0

/-- One `termios.tcsetattr` (or `tty.setraw`) call: installs `m` and logs it. -/
def applyMode (m : Nat) (t : Term) : Term :=
  { mode := m, setLog := t.setLog ++ [m] }

/-- What the underlying `sys.stdin.read(1)` does on one call: deliver the
character `c`, or raise an exception. -/
inductive ReadEv where
  | key (c : Char)
  | raiseErr
deriving Repr, DecidableEq

/-- Result of one `get_key_press` call: a character, the empty string
(end of input), or a propagating exception. -/
inductive ReadRes where
  | ok (c : Char)
  | eof
  | exn
deriving Repr, DecidableEq

/-- Model of `get_key_press` (update-llm-tags.py lines 103-111): saves the current
attributes, switches to raw mode, performs one read, and — in a `finally`
block, hence on every path, the exception path included — restores the saved
attributes.  `ev = none` models reading from an exhausted stream, which
returns the empty string. -/
def get_key_press (t : Term) (ev : Option ReadEv) : ReadRes × Term :=
  let old := t.mode
  let t1 := applyMode rawMode t
  match ev with
  | none => (.eof, applyMode old t1)
  | some (.key c) => (.ok c, applyMode old t1)
  | some .raiseErr => (.exn, applyMode old t1)

/-- How one run of `display_readme` ends.  `.aborted` is the `exit(1)` path,
`.raised` an uncaught exception from the read, `.stuck` the run that never
returns (the inner loop keeps re-reading forever on an exhausted stream). -/
inductive Outcome where
  | confirmed
  | rejected
  | aborted
  | raised
  | stuck
deriving Repr, DecidableEq

/-- Result of a `display_readme` run: how it ended, the pages rendered (each a
contiguous slice of the line list), the final terminal state, and the input
events not consumed. -/
structure RunRes where
  out : Outcome
  pages : List (List String)
  term : Term
  rest : List ReadEv
deriving Repr, DecidableEq

/-- Page size constant: `lines_per_page = 30` (update-llm-tags.py line 123). -/
def lines_per_page : Nat := 30

/-- The combined inner `while True` read loop and outer `while start < len`
page loop of `display_readme` (lines 118-147), entered just after the page at
`start` has been rendered.  `pages` in the result collects the pages rendered
*after* that point.  Branches, in source order: `y`/`Y` returns True, `n`/`N`
returns False, space advances one page only when `start + lines_per_page <
len(readme_lines)`, Ctrl+C (`'\x03'`) and Ctrl+\ (`'\x1c'`) call `exit(1)`,
and any other key re-enters the read loop on the same page. -/
def go (lines : List String) (start : Nat) (t : Term) : List ReadEv → RunRes
  | [] =>
    { out := .stuck, pages := [], term := (get_key_press t none).2, rest := [] }
  | e :: evs =>
    let p := get_key_press t (some e)
    match p.1 with
    | .eof => { out := .stuck, pages := [], term := p.2, rest := evs }
    | .exn => { out := .raised, pages := [], term := p.2, rest := evs }
    | .ok k =>
      if k.toLower = 'y' then
        { out := .confirmed, pages := [], term := p.2, rest := evs }
      else if k.toLower = 'n' then
        { out := .rejected, pages := [], term := p.2, rest := evs }
      else if k = ' ' ∧ start + lines_per_page < lines.length then
        let r := go lines (start + lines_per_page) p.2 evs
        { r with
          pages := (lines.drop (start + lines_per_page)).take lines_per_page
            :: r.pages }
      else if k = '\x03' ∨ k = '\x1c' then
        { out := .aborted, pages := [], term := p.2, rest := evs }
      else
        go lines start p.2 evs

/-- `display_readme` on an already split line list: if the line list is
nonempty the first page is rendered and the read loop is entered; otherwise
the `while` loop body never runs and the function returns False (line 148). -/
def displayReadmeL (lines : List String) (t : Term) (evs : List ReadEv) :
    RunRes :=
  if 0 < lines.length then
    let r := go lines 0 t evs
    { r with pages := lines.take lines_per_page :: r.pages }
  else
    { out := .rejected, pages := [], term := t, rest := evs }

/-- Python `str.split` with separator `"\n"` on the character list: splits at
every newline; the empty text yields the single empty segment `[[]]` (so the
result is never the empty list, exactly as in Python). -/
def split_lines_aux : List Char → List (List Char)
  | [] => [[]]
  | c :: cs =>
    let r := split_lines_aux cs
    if c = '\n' then [] :: r
    else
      match r with
      | [] => [[c]]
      | l :: ls => (c :: l) :: ls

/-- Model of `content.split("\n")` (update-llm-tags.py line 115). -/
def split_lines (s : String) : List String :=
  (split_lines_aux s.data).map List.asString

/-- Model of `display_readme` (lines 113-148): the body text is split on newlines
(`repo_card.content.split("\n")`) and paged.  The README content is passed in
directly; fetching it via `load_metadata` is an external collaborator. -/
def display_readme (content : String) (t : Term) (evs : List ReadEv) :
    RunRes :=
  displayReadmeL (split_lines content) t evs

/-- How a `display_and_confirm_repos` run ends: normally, or cut short by the
`exit(1)` abort, a propagating exception, or a never-returning item. -/
inductive BatchOut where
  | finished
  | aborted
  | raised
  | stuck
deriving Repr, DecidableEq

/-- Result of a batch run: the confirmed and not-confirmed repo ids collected
(in order), how the run ended, and the final terminal state.  On the
`.aborted`, `.raised` and `.stuck` ends the process never reaches the code
that records results, so the collected lists are empty. -/
structure BatchRes where
  confirmed : List String
  notConfirmed : List String
  out : BatchOut
  term : Term
deriving Repr, DecidableEq

/-- Model of `display_and_confirm_repos` (lines 150-175) over Review Items given as
`(repo_id, readme content)` pairs (the content lookup is an external
collaborator).  Each item is resolved by `display_readme` on the same input
stream; `exit(1)` (`.aborted`), an uncaught exception (`.raised`) or a
never-returning read loop (`.stuck`) stops the whole batch at once. -/
def display_and_confirm_repos (items : List (String × String)) (t : Term)
    (evs : List ReadEv) : BatchRes :=
  match items with
  | [] => { confirmed := [], notConfirmed := [], out := .finished, term := t }
  | (id, content) :: rest =>
    let r := display_readme content t evs
    match r.out with
    | .confirmed =>
      let b := display_and_confirm_repos rest r.term r.rest
      { b with confirmed := id :: b.confirmed }
    | .rejected =>
      let b := display_and_confirm_repos rest r.term r.rest
      { b with notConfirmed := id :: b.notConfirmed }
    | .aborted =>
      { confirmed := [], notConfirmed := [], out := .aborted, term := r.term }
    | .raised =>
      { confirmed := [], notConfirmed := [], out := .raised, term := r.term }
    | .stuck =>
      { confirmed := [], notConfirmed := [], out := .stuck, term := r.term }

/-- Fuel-driven chunking of a line list into successive slices of
`lines_per_page` lines; any fuel at least the list length is enough. -/
def pagesOfAux : Nat → List String → List (List String)
  | 0, _ => []
  | _, [] => []
  | fuel + 1, l =>
    l.take lines_per_page :: pagesOfAux fuel (l.drop lines_per_page)

/-- The sequence of pages `display_readme` shows when every page of `lines`
is visited: successive contiguous slices of `lines_per_page` lines. -/
def pagesOf (lines : List String) : List (List String) :=
  pagesOfAux lines.length lines

/-- Model of `add_transformers_tag` (tag.py lines 69-88), restricted to the `"tags"`
entry of the metadata dictionary, the only entry the function touches: if the
key is absent it is created as `[]`, and `"transformers"` is appended exactly
when it is not already present.  `none` models an absent `"tags"` key. -/
def add_transformers_tag (tags : Option (List String)) : List String :=
  let ts := tags.getD []
  if "transformers" ∈ ts then ts else ts ++ ["transformers"]

/-! ### Helper lemmas -/

theorem get_key_press_mode (t : Term) (ev : Option ReadEv) :
    ((get_key_press t ev).2).mode = t.mode := by
  rcases ev with _ | e
  · rfl
  · cases e <;> rfl

theorem get_key_press_setLog (t : Term) (ev : Option ReadEv) :
    ((get_key_press t ev).2).setLog = t.setLog ++ [rawMode, t.mode] := by
  rcases ev with _ | e
  · simp [get_key_press, applyMode]
  · cases e <;> simp [get_key_press, applyMode]

theorem go_term_mode (evs : List ReadEv) : ∀ (lines : List String)
    (start : Nat) (t : Term), ((go lines start t evs).term).mode = t.mode := by
  induction evs with
  | nil => intro lines start t; simp [go, get_key_press, applyMode]
  | cons e evs ih =>
    intro lines start t
    cases e with
    | key c =>
      simp only [go, get_key_press, applyMode]
      split_ifs <;> simp [ih]
    | raiseErr => simp [go, get_key_press, applyMode]

/-- Once the current page is the last one, no further page is ever rendered:
the space transition is disabled there. -/
theorem go_pages_last (evs : List ReadEv) : ∀ (lines : List String)
    (start : Nat) (t : Term), lines.length ≤ start + lines_per_page →
    (go lines start t evs).pages = [] := by
  induction evs with
  | nil => intro lines start t _; simp [go]
  | cons e evs ih =>
    intro lines start t h
    cases e with
    | key c =>
      simp only [go, get_key_press]
      split_ifs with h1 h2 h3 h4
      · rfl
      · rfl
      · omega
      · rfl
      · exact ih lines start _ h
    | raiseErr => simp [go, get_key_press]

theorem split_lines_aux_ne_nil (cs : List Char) : split_lines_aux cs ≠ [] := by
  induction cs with
  | nil => simp [split_lines_aux]
  | cons c cs ih =>
    simp only [split_lines_aux]
    split_ifs
    · simp
    · rcases h : split_lines_aux cs with _ | ⟨l, ls⟩
      · exact absurd h ih
      · simp [h]

theorem split_lines_length_pos (s : String) : 0 < (split_lines s).length := by
  have := split_lines_aux_ne_nil s.data
  simp only [split_lines, List.length_map]
  exact List.length_pos.mpr this

/-- Unfolding the read loop on a delivered character: the five source
branches, in source order. -/
theorem go_cons_key (lines : List String) (start : Nat) (t : Term) (c : Char)
    (evs : List ReadEv) :
    go lines start t (.key c :: evs) =
      (if c.toLower = 'y' then
        { out := .confirmed, pages := [],
          term := (get_key_press t (some (.key c))).2, rest := evs }
      else if c.toLower = 'n' then
        { out := .rejected, pages := [],
          term := (get_key_press t (some (.key c))).2, rest := evs }
      else if c = ' ' ∧ start + lines_per_page < lines.length then
        let r := go lines (start + lines_per_page)
          (get_key_press t (some (.key c))).2 evs
        { r with
          pages := (lines.drop (start + lines_per_page)).take lines_per_page
            :: r.pages }
      else if c = '\x03' ∨ c = '\x1c' then
        { out := .aborted, pages := [],
          term := (get_key_press t (some (.key c))).2, rest := evs }
      else go lines start (get_key_press t (some (.key c))).2 evs) := rfl

theorem go_cons_raise (lines : List String) (start : Nat) (t : Term)
    (evs : List ReadEv) :
    go lines start t (.raiseErr :: evs) =
      { out := .raised, pages := [],
        term := (get_key_press t (some .raiseErr)).2, rest := evs } := rfl

theorem go_nil (lines : List String) (start : Nat) (t : Term) :
    go lines start t [] =
      { out := .stuck, pages := [], term := (get_key_press t none).2,
        rest := [] } := rfl

theorem pagesOfAux_congr (f1 : Nat) : ∀ (f2 : Nat) (l : List String),
    l.length ≤ f1 → l.length ≤ f2 → pagesOfAux f1 l = pagesOfAux f2 l := by
  induction f1 with
  | zero =>
    intro f2 l h1 _
    have : l = [] := List.eq_nil_of_length_eq_zero (by omega)
    subst this
    cases f2 <;> rfl
  | succ f ih =>
    intro f2 l h1 h2
    cases l with
    | nil => cases f2 <;> rfl
    | cons x xs =>
      cases f2 with
      | zero => simp at h2
      | succ g =>
        simp only [pagesOfAux]
        congr 1
        have hP : lines_per_page = 30 := rfl
        have hd := List.length_drop lines_per_page (x :: xs)
        apply ih
        · rw [hd]
          simp only [List.length_cons, hP] at h1 ⊢
          omega
        · rw [hd]
          simp only [List.length_cons, hP] at h2 ⊢
          omega

theorem pagesOf_nil : pagesOf [] = [] := rfl

theorem pagesOf_cons {l : List String} (h : l ≠ []) :
    pagesOf l = l.take lines_per_page :: pagesOf (l.drop lines_per_page) := by
  cases l with
  | nil => exact absurd rfl h
  | cons x xs =>
    show pagesOfAux (xs.length + 1) (x :: xs) = _
    simp only [pagesOfAux]
    congr 1
    apply pagesOfAux_congr
    · have hP : lines_per_page = 30 := rfl
      have hd := List.length_drop lines_per_page (x :: xs)
      simp only [List.length_cons] at hd ⊢
      omega
    · rfl

/-- The number of pages is `⌈N / 30⌉`, written `(N + 29) / 30` in `Nat`. -/
theorem pagesOf_length (l : List String) :
    (pagesOf l).length = (l.length + (lines_per_page - 1)) / lines_per_page
    := by
  generalize hn : l.length = n
  induction n using Nat.strong_induction_on generalizing l with
  | _ n ih =>
    rcases eq_or_ne l [] with rfl | h
    · simp only [List.length_nil] at hn
      subst hn
      rfl
    · have hP : lines_per_page = 30 := rfl
      have hpos : 0 < n := hn ▸ List.length_pos.mpr h
      rw [pagesOf_cons h, List.length_cons]
      have hlen : (l.drop lines_per_page).length = n - lines_per_page := by
        rw [List.length_drop, hn]
      rw [ih (n - lines_per_page) (by omega) _ hlen, hP]
      rcases le_or_lt n 30 with hle | hgt
      · have e1 : n - 30 + (30 - 1) = 29 := by omega
        have e2 : (29 : Nat) / 30 = 0 := by norm_num
        have e3 : (n + (30 - 1)) / 30 = 1 :=
          Nat.div_eq_of_lt_le (by omega) (by omega)
        rw [e1, e2, e3]
      · have e1 : n - 30 + (30 - 1) = n - 1 := by omega
        have e2 : n + (30 - 1) = (n - 1) + 30 := by omega
        rw [e1, e2, Nat.add_div_right _ (by norm_num)]

/-- Paging through with space and deciding `n` on the last page: starting on
the page at `start` with `k + 1` pages still to show, `k` spaces followed by
one `n` end in `Rejected`, having rendered exactly the remaining pages. -/
theorem go_space_then_n (k : Nat) : ∀ (lines : List String) (start : Nat)
    (t : Term), start < lines.length →
    (pagesOf (lines.drop start)).length = k + 1 →
    (go lines start t (List.replicate k (.key ' ') ++ [.key 'n'])).out
        = .rejected ∧
    (go lines start t (List.replicate k (.key ' ') ++ [.key 'n'])).pages
        = pagesOf (lines.drop (start + lines_per_page)) := by
  induction k with
  | zero =>
    intro lines start t h hk
    have hd : lines.drop start ≠ [] :=
      List.length_pos.mp (by rw [List.length_drop]; omega)
    rw [pagesOf_cons hd, List.length_cons, List.drop_drop] at hk
    have htail : pagesOf (lines.drop (start + lines_per_page)) = [] :=
      List.length_eq_zero.mp (by omega)
    constructor
    · simp only [List.replicate, List.nil_append, go_cons_key]
      rw [if_neg (by decide), if_pos (by decide)]
    · simp only [List.replicate, List.nil_append, go_cons_key]
      rw [if_neg (by decide), if_pos (by decide), htail]
  | succ k ih =>
    intro lines start t h hk
    have hd : lines.drop start ≠ [] :=
      List.length_pos.mp (by rw [List.length_drop]; omega)
    rw [pagesOf_cons hd, List.length_cons, List.drop_drop] at hk
    have hk2 : (pagesOf (lines.drop (start + lines_per_page))).length = k + 1
      := by omega
    have hd2 : lines.drop (start + lines_per_page) ≠ [] := by
      intro he
      rw [he, pagesOf_nil] at hk2
      simp at hk2
    have hlt : start + lines_per_page < lines.length := by
      have := List.length_pos.mpr hd2
      rw [List.length_drop] at this
      omega
    simp only [List.replicate, List.cons_append, go_cons_key]
    rw [if_neg (by decide), if_neg (by decide), if_pos ⟨trivial, hlt⟩]
    obtain ⟨ho, hp⟩ := ih lines (start + lines_per_page)
      (get_key_press t (some (.key ' '))).2 hlt hk2
    refine ⟨ho, ?_⟩
    rw [pagesOf_cons hd2, List.drop_drop]
    simp only [hp]

/-- Unfolding `displayReadmeL` on a nonempty line list. -/
theorem displayReadmeL_pos {lines : List String} (hlen : 0 < lines.length)
    (t : Term) (evs : List ReadEv) :
    displayReadmeL lines t evs =
      { out := (go lines 0 t evs).out,
        pages := lines.take lines_per_page :: (go lines 0 t evs).pages,
        term := (go lines 0 t evs).term,
        rest := (go lines 0 t evs).rest } := by
  unfold displayReadmeL
  rw [if_pos hlen]

/-- `display_readme` always renders at least the first page: a split body is
never the empty line list. -/
theorem display_readme_eq (content : String) (t : Term) (evs : List ReadEv) :
    display_readme content t evs =
      { out := (go (split_lines content) 0 t evs).out,
        pages := (split_lines content).take lines_per_page
          :: (go (split_lines content) 0 t evs).pages,
        term := (go (split_lines content) 0 t evs).term,
        rest := (go (split_lines content) 0 t evs).rest } :=
  displayReadmeL_pos (split_lines_length_pos content) t evs

/-! ### Claim theorems -/

/-- C1: on every page (any `start`, hence first, middle, or last), if the
keystroke read returns `y` or `Y`, the run returns `Confirmed` at once,
renders no further pages, and consumes no further input; at the whole-call
level only the already rendered first page is ever shown. -/
theorem key_y_confirms_immediately (lines : List String) (start : Nat)
    (t : Term) (evs : List ReadEv) (k : Char) (hk : k = 'y' ∨ k = 'Y') :
    (go lines start t (.key k :: evs)).out = .confirmed ∧
    (go lines start t (.key k :: evs)).pages = [] ∧
    (go lines start t (.key k :: evs)).rest = evs ∧
    (0 < lines.length →
      (displayReadmeL lines t (.key k :: evs)).out = .confirmed ∧
      (displayReadmeL lines t (.key k :: evs)).pages
        = [lines.take lines_per_page]) := by
  have hgo : ∀ s : Nat, go lines s t (.key k :: evs) =
      { out := .confirmed, pages := [],
        term := (get_key_press t (some (.key k))).2, rest := evs } := by
    intro s
    rcases hk with rfl | rfl <;> rw [go_cons_key, if_pos (by decide)]
  refine ⟨by rw [hgo start], by rw [hgo start], by rw [hgo start],
    fun hlen => ?_⟩
  rw [displayReadmeL_pos hlen, hgo 0]
  exact ⟨rfl, rfl⟩

/-- Witness for C1 at a concrete two-page body, middle position, key `y`. -/
theorem key_y_confirms_immediately_witness :
    ('y' = 'y' ∨ 'y' = 'Y') ∧
    ((go (List.replicate 40 "x") 30 ⟨1, []⟩ [.key 'y', .key 'n']).out
        = .confirmed ∧
      (go (List.replicate 40 "x") 30 ⟨1, []⟩ [.key 'y', .key 'n']).pages = [] ∧
      (go (List.replicate 40 "x") 30 ⟨1, []⟩ [.key 'y', .key 'n']).rest
        = [.key 'n'] ∧
      (0 < (List.replicate 40 "x").length →
        (displayReadmeL (List.replicate 40 "x") ⟨1, []⟩
            [.key 'y', .key 'n']).out = .confirmed ∧
        (displayReadmeL (List.replicate 40 "x") ⟨1, []⟩
            [.key 'y', .key 'n']).pages
          = [(List.replicate 40 "x").take lines_per_page])) :=
  ⟨Or.inl rfl, key_y_confirms_immediately (List.replicate 40 "x") 30 ⟨1, []⟩
    [.key 'n'] 'y' (Or.inl rfl)⟩

/-- C2: on every page, if the keystroke read returns `n` or `N`, the run
returns `Rejected` at once and renders no further pages. -/
theorem key_n_rejects_immediately (lines : List String) (start : Nat)
    (t : Term) (evs : List ReadEv) (k : Char) (hk : k = 'n' ∨ k = 'N') :
    (go lines start t (.key k :: evs)).out = .rejected ∧
    (go lines start t (.key k :: evs)).pages = [] ∧
    (go lines start t (.key k :: evs)).rest = evs ∧
    (0 < lines.length →
      (displayReadmeL lines t (.key k :: evs)).out = .rejected ∧
      (displayReadmeL lines t (.key k :: evs)).pages
        = [lines.take lines_per_page]) := by
  have hgo : ∀ s : Nat, go lines s t (.key k :: evs) =
      { out := .rejected, pages := [],
        term := (get_key_press t (some (.key k))).2, rest := evs } := by
    intro s
    rcases hk with rfl | rfl <;>
      rw [go_cons_key, if_neg (by decide), if_pos (by decide)]
  refine ⟨by rw [hgo start], by rw [hgo start], by rw [hgo start],
    fun hlen => ?_⟩
  rw [displayReadmeL_pos hlen, hgo 0]
  exact ⟨rfl, rfl⟩

/-- Witness for C2 at a concrete two-page body, middle position, key `N`. -/
theorem key_n_rejects_immediately_witness :
    ('N' = 'n' ∨ 'N' = 'N') ∧
    ((go (List.replicate 40 "x") 30 ⟨1, []⟩ [.key 'N', .key 'y']).out
        = .rejected ∧
      (go (List.replicate 40 "x") 30 ⟨1, []⟩ [.key 'N', .key 'y']).pages = [] ∧
      (go (List.replicate 40 "x") 30 ⟨1, []⟩ [.key 'N', .key 'y']).rest
        = [.key 'y'] ∧
      (0 < (List.replicate 40 "x").length →
        (displayReadmeL (List.replicate 40 "x") ⟨1, []⟩
            [.key 'N', .key 'y']).out = .rejected ∧
        (displayReadmeL (List.replicate 40 "x") ⟨1, []⟩
            [.key 'N', .key 'y']).pages
          = [(List.replicate 40 "x").take lines_per_page])) :=
  ⟨Or.inr rfl, key_n_rejects_immediately (List.replicate 40 "x") 30 ⟨1, []⟩
    [.key 'y'] 'N' (Or.inr rfl)⟩

/-- C4: pressing space advances to the next page exactly when the current
page is not the last one: below the last page the run renders the next slice
and continues from there, while on the last page the space keystroke is
consumed without effect and the read repeats on the same page. -/
theorem space_advances_iff_not_last_page (lines : List String) (start : Nat)
    (t : Term) (evs : List ReadEv) :
    (start + lines_per_page < lines.length →
      go lines start t (.key ' ' :: evs) =
        { go lines (start + lines_per_page)
            ((get_key_press t (some (.key ' '))).2) evs with
          pages := (lines.drop (start + lines_per_page)).take lines_per_page
            :: (go lines (start + lines_per_page)
                ((get_key_press t (some (.key ' '))).2) evs).pages }) ∧
    (lines.length ≤ start + lines_per_page →
      go lines start t (.key ' ' :: evs)
        = go lines start ((get_key_press t (some (.key ' '))).2) evs) := by
  constructor
  · intro hlt
    rw [go_cons_key, if_neg (by decide), if_neg (by decide),
      if_pos ⟨rfl, hlt⟩]
  · intro hge
    rw [go_cons_key, if_neg (by decide), if_neg (by decide),
      if_neg (fun hc => absurd hc.2 (by omega)), if_neg (by decide)]

/-- Witness for C4: the last-page half on a one-line body. -/
theorem space_advances_iff_not_last_page_witness :
    (["a"] : List String).length ≤ 0 + lines_per_page ∧
    go ["a"] 0 ⟨1, []⟩ [ReadEv.key ' ']
      = go ["a"] 0 ((get_key_press ⟨1, []⟩ (some (ReadEv.key ' '))).2) [] :=
  ⟨by decide, (space_advances_iff_not_last_page ["a"] 0 ⟨1, []⟩ []).2
    (by decide)⟩

/-- C6: on the empty body the split produces the single empty line, so the
call still renders the header and exactly one (empty) page, whatever the
input holds, and then blocks on the read: with no key it never returns (in
particular it does not return an automatic `Rejected`), and the first key
read decides the outcome. -/
theorem empty_body_renders_one_page (t : Term) (evs : List ReadEv) :
    (display_readme "" t evs).pages = [[""]] ∧
    (display_readme "" t []).out = .stuck ∧
    (display_readme "" t [.key 'n']).out = .rejected ∧
    (display_readme "" t [.key 'y']).out = .confirmed := by
  have hsl : split_lines "" = [""] := rfl
  refine ⟨?_, ?_, ?_, ?_⟩
  · rw [display_readme_eq, hsl]
    have := go_pages_last evs [""] 0 t (by decide)
    rw [this]
    rfl
  · rw [display_readme_eq, hsl, go_nil]
  · rw [display_readme_eq, hsl, go_cons_key, if_neg (by decide),
      if_pos (by decide)]
  · rw [display_readme_eq, hsl, go_cons_key, if_pos (by decide)]

/-- C8: every keystroke read installs raw mode and then, on every read path
(character delivered, stream exhausted, or exception raised), restores the
prior attributes — visible in `setLog` — and after the whole confirm
operation returns by any path the terminal mode equals its pre-call value. -/
theorem terminal_mode_restored (t : Term) (ev : Option ReadEv)
    (content : String) (lines : List String) (start : Nat)
    (evs : List ReadEv) :
    ((get_key_press t ev).2).mode = t.mode ∧
    ((get_key_press t ev).2).setLog = t.setLog ++ [rawMode, t.mode] ∧
    ((go lines start t evs).term).mode = t.mode ∧
    ((displayReadmeL lines t evs).term).mode = t.mode ∧
    ((display_readme content t evs).term).mode = t.mode := by
  refine ⟨get_key_press_mode t ev, get_key_press_setLog t ev,
    go_term_mode evs lines start t, ?_, ?_⟩
  · unfold displayReadmeL
    split_ifs with h
    · exact go_term_mode evs lines 0 t
    · rfl
  · unfold display_readme displayReadmeL
    split_ifs with h
    · exact go_term_mode evs _ 0 t
    · rfl

/-- C10: the tag-adding step always leaves `"transformers"` present, is
idempotent on the tags list, and never creates a duplicate
`"transformers"` entry. -/
theorem add_transformers_tag_idempotent (tags : Option (List String)) :
    "transformers" ∈ add_transformers_tag tags ∧
    add_transformers_tag (some (add_transformers_tag tags))
      = add_transformers_tag tags ∧
    (add_transformers_tag tags).count "transformers"
      = max 1 ((tags.getD []).count "transformers") := by
  unfold add_transformers_tag
  by_cases h : "transformers" ∈ tags.getD []
  · rw [if_pos h]
    refine ⟨h, by simp [h], ?_⟩
    have hc := List.count_pos_iff.mpr h
    omega
  · rw [if_neg h]
    refine ⟨by simp, by simp, ?_⟩
    rw [List.count_append, List.count_eq_zero.mpr h]
    simp

/-- In the read loop, any number of space keystrokes never produces a
decision: space either advances a page or, on the last page, is consumed
with no effect, and when the stream runs out the loop re-reads forever. -/
theorem go_spaces_stuck (m : Nat) : ∀ (lines : List String) (start : Nat)
    (t : Term),
    (go lines start t (List.replicate m (.key ' '))).out = .stuck := by
  induction m with
  | zero => intro lines start t; rfl
  | succ m ih =>
    intro lines start t
    rw [show List.replicate (m + 1) (ReadEv.key ' ')
        = .key ' ' :: List.replicate m (.key ' ') from rfl,
      go_cons_key, if_neg (by decide), if_neg (by decide)]
    by_cases h : start + lines_per_page < lines.length
    · rw [if_pos ⟨rfl, h⟩]
      exact ih lines (start + lines_per_page) _
    · rw [if_neg (fun hc => absurd hc.2 h), if_neg (by decide)]
      exact ih lines start _

/-- C3 counterexample: a 65-line body (3 pages of 30) with space pressed on
every page, through the last: the run does not terminate with the default
`Rejected`; on the last page the space is ignored and the exhausted loop
re-reads forever (`.stuck`). -/
theorem space_through_exhaustion_cex :
    (displayReadmeL (List.replicate 65 "line") ⟨1, []⟩
        (List.replicate 3 (.key ' '))).out = .stuck ∧
    Outcome.stuck ≠ Outcome.rejected := by decide

/-- C3 amended: pressing space on every page with no confirm/reject key never
terminates the confirm operation at all — the exhaustion default `Rejected`
(line 148) is unreachable, because space only advances while further pages
remain. -/
theorem space_only_never_rejects (content : String) (t : Term) (m : Nat) :
    (display_readme content t (List.replicate m (.key ' '))).out = .stuck := by
  rw [display_readme_eq]
  exact go_spaces_stuck m (split_lines content) 0 t

/-- C5: with fixed page size 30, paging through with space and deciding only
on the last page renders exactly `⌈N/30⌉` pages, each a contiguous
30-line slice in order, and a 65-line body yields the three pages
1–30, 31–60, 61–65. -/
theorem pages_rendered_ceil_div (lines : List String) (t : Term)
    (hlen : 0 < lines.length) :
    (displayReadmeL lines t
        (List.replicate ((pagesOf lines).length - 1) (.key ' ')
          ++ [.key 'n'])).out = .rejected ∧
    (displayReadmeL lines t
        (List.replicate ((pagesOf lines).length - 1) (.key ' ')
          ++ [.key 'n'])).pages = pagesOf lines ∧
    (pagesOf lines).length
      = (lines.length + (lines_per_page - 1)) / lines_per_page ∧
    (lines.length = 65 → pagesOf lines
      = [lines.take 30, (lines.drop 30).take 30, lines.drop 60]) := by
  have hne : lines ≠ [] := List.length_pos.mp hlen
  have h0 : 0 < (pagesOf lines).length := by
    rw [pagesOf_cons hne]
    simp
  obtain ⟨ho, hp⟩ := go_space_then_n ((pagesOf lines).length - 1) lines 0 t
    hlen (by rw [List.drop_zero]; omega)
  rw [displayReadmeL_pos hlen]
  refine ⟨ho, ?_, pagesOf_length lines, ?_⟩
  · show lines.take lines_per_page :: (go lines 0 t _).pages = pagesOf lines
    rw [hp, pagesOf_cons hne, Nat.zero_add]
  · intro h65
    have hP : lines_per_page = 30 := rfl
    have hd1 : lines.drop 30 ≠ [] :=
      List.length_pos.mp (by rw [List.length_drop, h65]; norm_num)
    have hd2 : lines.drop 60 ≠ [] :=
      List.length_pos.mp (by rw [List.length_drop, h65]; norm_num)
    rw [pagesOf_cons hne, hP, pagesOf_cons hd1, hP, List.drop_drop]
    norm_num
    rw [pagesOf_cons hd2, hP, List.drop_drop]
    norm_num
    exact ⟨by omega,
      by rw [List.drop_eq_nil_iff.mpr (by omega : lines.length ≤ 90),
        pagesOf_nil]⟩

/-- Witness for C5 on a concrete 65-line body. -/
theorem pages_rendered_ceil_div_witness :
    0 < (List.replicate 65 "x").length ∧
    ((displayReadmeL (List.replicate 65 "x") ⟨1, []⟩
        (List.replicate ((pagesOf (List.replicate 65 "x")).length - 1)
            (.key ' ') ++ [.key 'n'])).out = .rejected ∧
      (displayReadmeL (List.replicate 65 "x") ⟨1, []⟩
        (List.replicate ((pagesOf (List.replicate 65 "x")).length - 1)
            (.key ' ') ++ [.key 'n'])).pages = pagesOf (List.replicate 65 "x")
        ∧
      (pagesOf (List.replicate 65 "x")).length
        = ((List.replicate 65 "x").length + (lines_per_page - 1))
            / lines_per_page ∧
      ((List.replicate 65 "x").length = 65 → pagesOf (List.replicate 65 "x")
        = [(List.replicate 65 "x").take 30,
          ((List.replicate 65 "x").drop 30).take 30,
          (List.replicate 65 "x").drop 60])) :=
  ⟨by decide, pages_rendered_ceil_div (List.replicate 65 "x") ⟨1, []⟩
    (by decide)⟩

/-- C7: an interrupt keystroke (Ctrl+C `'\x03'` or Ctrl+\ `'\x1c'`) makes the
read loop end in `Aborted` at once on any page with nothing further
rendered, and an item resolving to `Aborted` stops the batch: the remaining
Review Items are never examined (the batch result does not depend on them),
nothing is recorded, and in particular the item is not recorded as a
per-item rejection. -/
theorem interrupt_aborts_batch (lines : List String) (start : Nat) (t : Term)
    (evs : List ReadEv) (id content : String)
    (items : List (String × String))
    (habort : (display_readme content t evs).out = .aborted) :
    (go lines start t (.key '\x03' :: evs)).out = .aborted ∧
    (go lines start t (.key '\x1c' :: evs)).out = .aborted ∧
    (go lines start t (.key '\x03' :: evs)).pages = [] ∧
    display_and_confirm_repos ((id, content) :: items) t evs
      = display_and_confirm_repos [(id, content)] t evs ∧
    (display_and_confirm_repos ((id, content) :: items) t evs).out
      = .aborted ∧
    (display_and_confirm_repos ((id, content) :: items) t evs).confirmed = []
      ∧
    (display_and_confirm_repos ((id, content) :: items) t evs).notConfirmed
      = [] := by
  have hb : ∀ its : List (String × String),
      display_and_confirm_repos ((id, content) :: its) t evs =
        { confirmed := [], notConfirmed := [], out := .aborted,
          term := (display_readme content t evs).term } := by
    intro its
    simp only [display_and_confirm_repos]
    rw [habort]
  refine ⟨?_, ?_, ?_, by rw [hb items, hb []], by rw [hb items],
    by rw [hb items], by rw [hb items]⟩
  · rw [go_cons_key, if_neg (by decide), if_neg (by decide),
      if_neg (fun hc => absurd hc.1 (by decide)), if_pos (Or.inl rfl)]
  · rw [go_cons_key, if_neg (by decide), if_neg (by decide),
      if_neg (fun hc => absurd hc.1 (by decide)), if_pos (Or.inr rfl)]
  · rw [go_cons_key, if_neg (by decide), if_neg (by decide),
      if_neg (fun hc => absurd hc.1 (by decide)), if_pos (Or.inl rfl)]

/-- Witness for C7 with Ctrl+C pressed on the first page of a two-item
batch. -/
theorem interrupt_aborts_batch_witness :
    (display_readme "hi" ⟨1, []⟩ [.key '\x03']).out = .aborted ∧
    ((go ["line"] 0 ⟨1, []⟩ (ReadEv.key '\x03' :: [.key '\x03'])).out
        = .aborted ∧
      (go ["line"] 0 ⟨1, []⟩ (ReadEv.key '\x1c' :: [.key '\x03'])).out
        = .aborted ∧
      (go ["line"] 0 ⟨1, []⟩ (ReadEv.key '\x03' :: [.key '\x03'])).pages = []
        ∧
      display_and_confirm_repos [("r1", "hi"), ("r2", "bye")] ⟨1, []⟩
          [.key '\x03']
        = display_and_confirm_repos [("r1", "hi")] ⟨1, []⟩ [.key '\x03'] ∧
      (display_and_confirm_repos [("r1", "hi"), ("r2", "bye")] ⟨1, []⟩
          [.key '\x03']).out = .aborted ∧
      (display_and_confirm_repos [("r1", "hi"), ("r2", "bye")] ⟨1, []⟩
          [.key '\x03']).confirmed = [] ∧
      (display_and_confirm_repos [("r1", "hi"), ("r2", "bye")] ⟨1, []⟩
          [.key '\x03']).notConfirmed = []) :=
  ⟨by decide, interrupt_aborts_batch ["line"] 0 ⟨1, []⟩ [.key '\x03']
    "r1" "hi" [("r2", "bye")] (by decide)⟩

/-- C9 counterexample: with the keystroke source exhausted from the start,
the confirm operation does not terminate with `Aborted`: the read returns
the empty string forever and the loop never exits (`.stuck`). -/
theorem input_exhausted_cex :
    (display_readme "hello" ⟨1, []⟩ []).out = .stuck ∧
    Outcome.stuck ≠ Outcome.aborted := by decide

/-- C9 amended: an exhausted keystroke source does not terminate the confirm
operation (nothing maps it to `Aborted`; the loop re-reads forever), whereas
a read that raises propagates immediately: the item ends `.raised` with
nothing further rendered and the batch loop stops without examining the
remaining Review Items. -/
theorem input_closed_behavior (content : String) (t : Term)
    (lines : List String) (start : Nat) (evs : List ReadEv)
    (id : String) (items : List (String × String))
    (hraise : (display_readme content t evs).out = .raised) :
    (display_readme content t []).out = .stuck ∧
    (go lines start t (.raiseErr :: evs)).out = .raised ∧
    (go lines start t (.raiseErr :: evs)).pages = [] ∧
    display_and_confirm_repos ((id, content) :: items) t evs
      = display_and_confirm_repos [(id, content)] t evs ∧
    (display_and_confirm_repos ((id, content) :: items) t evs).out
      = .raised := by
  have hb : ∀ its : List (String × String),
      display_and_confirm_repos ((id, content) :: its) t evs =
        { confirmed := [], notConfirmed := [], out := .raised,
          term := (display_readme content t evs).term } := by
    intro its
    simp only [display_and_confirm_repos]
    rw [hraise]
  refine ⟨?_, by rw [go_cons_raise], by rw [go_cons_raise],
    by rw [hb items, hb []], by rw [hb items]⟩
  rw [display_readme_eq, go_nil]

/-- Witness for the amended C9 statement: the read raises on the first page. -/
theorem input_closed_behavior_witness :
    (display_readme "ab" ⟨2, []⟩ [.raiseErr]).out = .raised ∧
    ((display_readme "ab" ⟨2, []⟩ []).out = .stuck ∧
      (go ["z"] 0 ⟨2, []⟩ (ReadEv.raiseErr :: [.raiseErr])).out = .raised ∧
      (go ["z"] 0 ⟨2, []⟩ (ReadEv.raiseErr :: [.raiseErr])).pages = [] ∧
      display_and_confirm_repos [("r1", "ab"), ("r2", "cd")] ⟨2, []⟩
          [.raiseErr]
        = display_and_confirm_repos [("r1", "ab")] ⟨2, []⟩ [.raiseErr] ∧
      (display_and_confirm_repos [("r1", "ab"), ("r2", "cd")] ⟨2, []⟩
          [.raiseErr]).out = .raised) :=
  ⟨by decide, input_closed_behavior "ab" ⟨2, []⟩ ["z"] 0 [.raiseErr]
    "r1" [("r2", "cd")] (by decide)⟩
